import Mathlib

/-!
# Verification of the Insider-Screen multi-tier fallback pipeline

A shallow embedding, in Lean 4, of the core components of the Insider-Screen
repository, together with theorems settling the specification's testable
properties against the code:

* `src/production_circuit_breaker.py` — `ProductionWindowBreaker` (sliding
  window circuit breaker with closed/open/half-open states);
* `src/revenue_fallback_system.py` — `revenue_fallback_cascade` and
  `_deduplicate_periods`;
* `src/financial_metrics.py` — `percent_growth`, `cagr`;
* `src/growth_calculator.py` — `GrowthCalculator.calculate_yoy_growth`;
* `src/financial_tabulator.py` — `normalize_record`;
* `src/final_integration_pipeline.py` — `IntegrationPipeline.combine`.

Machine floats in the Python source are modelled by exact rationals `ℚ`
(`time.time()` timestamps, financial values); `math.pow` with a possibly
irrational exponent is modelled over `ℝ`.  Python `None` becomes `Option`.
-/

namespace InsiderScreen

/-! ## Circuit breaker — `src/production_circuit_breaker.py`

The Python class `ProductionWindowBreaker` keeps per-key dictionaries
(`fail_events`, `state`, `open_until`, `halfopen_inflight`); every method reads
and writes only the entries at its `key` argument, so distinct keys evolve
independently.  We embed the projection of the breaker onto one key.  The
current time `time.time()` is passed explicitly as `now : ℚ`; the dictionary
defaults (`"closed"`, `0`, empty deque) are the fields of `KeyState.init`.
-/

inductive BState where
  | closed
  | «open»
  | halfOpen
deriving DecidableEq, Repr

/-- Constructor parameters of `ProductionWindowBreaker.__init__`. -/
structure Cfg where
  fail_threshold : ℕ
  window_sec : ℚ
  open_sec : ℚ
  halfopen_max : ℕ
deriving DecidableEq, Repr

/-- The Python defaults: `fail_threshold=5, window_sec=60, open_sec=60, halfopen_max=1`. -/
def Cfg.default : Cfg := ⟨5, 60, 60, 1⟩

/-- The per-key slice of the breaker's four dictionaries.  `fail_events` is the
deque of failure timestamps, oldest first. -/
structure KeyState where
  fail_events : List ℚ
  state : BState
  open_until : ℚ
  halfopen_inflight : ℕ
deriving DecidableEq, Repr

/-- A key that has never been touched: every dictionary lookup falls back to
its default (`"closed"`, `0`, empty deque). -/
def KeyState.init : KeyState := ⟨[], .closed, 0, 0⟩

namespace Breaker

/-- `_prune_old_failures`: drop failure timestamps strictly older than
`now - window_sec` from the front of the deque. -/
def prune_old_failures (cfg : Cfg) (now : ℚ) (st : KeyState) : KeyState :=
  { st with fail_events := st.fail_events.dropWhile (fun t => t < now - cfg.window_sec) }

/-- `allow(key)`: closed allows everything; open allows only once
`now > open_until`; half-open allows while `halfopen_inflight < halfopen_max`. -/
def allow (cfg : Cfg) (now : ℚ) (st : KeyState) : Bool :=
  match st.state with
  | .«open» => decide (st.open_until < now)
  | .halfOpen => decide (st.halfopen_inflight < cfg.halfopen_max)
  | .closed => true

/-- `record_success(key)`: reset to closed, zero the inflight counter, clear
the failure history. -/
def record_success (st : KeyState) : KeyState :=
  { st with state := .closed, halfopen_inflight := 0, fail_events := [] }

/-- `record_failure(key)`: prune, append the current timestamp, and open the
circuit (setting `open_until = now + open_sec`) when the window holds at least
`fail_threshold` failures. -/
def record_failure (cfg : Cfg) (now : ℚ) (st : KeyState) : KeyState :=
  let st' := prune_old_failures cfg now st
  let dq := st'.fail_events ++ [now]
  if cfg.fail_threshold ≤ dq.length then
    { st' with fail_events := dq, state := .«open», open_until := now + cfg.open_sec }
  else
    { st' with fail_events := dq }

/-- `on_attempt(key)`: transition open → half-open once the cooldown has
elapsed, then count the attempt while half-open. -/
def on_attempt (cfg : Cfg) (now : ℚ) (st : KeyState) : KeyState :=
  let st' :=
    if st.state = .«open» ∧ st.open_until < now then
      { st with state := .halfOpen }
    else st
  if st'.state = .halfOpen then
    { st' with halfopen_inflight := st'.halfopen_inflight + 1 }
  else st'

/-- `on_attempt_done(key)`: decrement the inflight counter (clamped at 0)
while half-open. -/
def on_attempt_done (st : KeyState) : KeyState :=
  if st.state = .halfOpen then
    { st with halfopen_inflight := st.halfopen_inflight - 1 }
  else st

/-- A sequence of `record_failure` calls at the given timestamps. -/
def runFailures (cfg : Cfg) (ts : List ℚ) (st : KeyState) : KeyState :=
  ts.foldl (fun s t => record_failure cfg t s) st

end Breaker

/-! ## Fallback cascade — `src/revenue_fallback_system.py`

`revenue_fallback_cascade` inspects only the `annual`/`quarterly` lists
(Python truthiness of `.get(...)`), the `needs_fallback` flag, and on total
failure each result's `error` string; the period records themselves are opaque
to it.  A period record is embedded by the three fields `_deduplicate_periods`
reads, with the Python `.get` defaults applied (`fiscal_year` 0,
`fiscal_quarter` `""`, `value` 0).  An absent dict key is a falsy value, so an
absent `annual` key is the empty list, an absent `needs_fallback` is `false`
and an absent `error` is `Option.none`. -/

structure Period where
  fiscal_year : ℤ
  fiscal_quarter : String
  value : ℤ
deriving DecidableEq, Repr

/-- The `tier_results` diagnostic map of the cascade's total-failure result. -/
structure TierErrors where
  primary : String
  tier1 : String
  tier2 : String
  tier3 : String
deriving DecidableEq, Repr

/-- The uniform result dict returned by the primary extractor and each tier. -/
structure ExtractionResult where
  annual : List Period
  quarterly : List Period
  extraction_method : Option String
  error : Option String
  needs_fallback : Bool
  tier_results : Option TierErrors
deriving DecidableEq, Repr

/-- Truthiness of `result.get('annual') or result.get('quarterly')`. -/
def ExtractionResult.hasData (r : ExtractionResult) : Bool :=
  !r.annual.isEmpty || !r.quarterly.isEmpty

/-- `MultiTierRevenueFallback.revenue_fallback_cascade`, as a function of the
primary result and the three tier results (the tier methods are called lazily
in the source; with their outputs fixed, the cascade is this selection).
The Python code returns `primary_result` only inside the nested
`if primary.get('annual') or primary.get('quarterly'):` /
`if not primary.get('needs_fallback'):`; when the outer test holds but the
inner fails it falls through to Tier 1. -/
def revenue_fallback_cascade (primary tier1 tier2 tier3 : ExtractionResult) :
    ExtractionResult :=
  if primary.hasData && !primary.needs_fallback then primary
  else if tier1.hasData then tier1
  else if tier2.hasData then tier2
  else if tier3.hasData then tier3
  else
    { annual := []
      quarterly := []
      extraction_method := some "cascade_failure"
      error := some "All fallback tiers failed"
      needs_fallback := false
      tier_results := some
        { primary := primary.error.getD "Unknown"
          tier1 := tier1.error.getD "Unknown"
          tier2 := tier2.error.getD "Unknown"
          tier3 := tier3.error.getD "Unknown" } }

inductive PeriodType where
  | annual
  | quarterly
deriving DecidableEq, Repr

/-- Deduplication key for annual periods: `(fiscal_year, value)`. -/
def dedupKeyA (p : Period) : ℤ × ℤ := (p.fiscal_year, p.value)

/-- Deduplication key for quarterly periods: `(fiscal_year, fiscal_quarter, value)`. -/
def dedupKeyQ (p : Period) : ℤ × String × ℤ := (p.fiscal_year, p.fiscal_quarter, p.value)

/-- The `seen`-set loop of `_deduplicate_periods`: keep the first occurrence
of each key, in input order. -/
def dedupLoop {κ : Type} [DecidableEq κ] (key : Period → κ) :
    List Period → List κ → List Period
  | [], _ => []
  | p :: rest, seen =>
    if key p ∈ seen then dedupLoop key rest seen
    else p :: dedupLoop key rest (key p :: seen)

/-- `MultiTierRevenueFallback._deduplicate_periods`: deduplicate by composite
key, stable-sort by fiscal year descending (Python `list.sort` with
`reverse=True` is stable), cap at 5 annual / 20 quarterly periods.  The Python
early return for an empty input list coincides with the general path. -/
def deduplicate_periods (periods : List Period) (ptype : PeriodType) : List Period :=
  let uniq := match ptype with
    | .annual => dedupLoop dedupKeyA periods []
    | .quarterly => dedupLoop dedupKeyQ periods []
  let sorted := uniq.mergeSort (fun a b => decide (b.fiscal_year ≤ a.fiscal_year))
  match ptype with
  | .annual => sorted.take 5
  | .quarterly => sorted.take 20

/-! ## Growth metrics — `src/financial_metrics.py` and `src/growth_calculator.py` -/

/-- `percent_growth(previous, current)`.  A `None` argument on either side
yields `None` (explicitly for `previous`, via the caught `TypeError` of
`float(None)` for `current`), as does a zero base. -/
def percent_growth (previous current : Option ℚ) : Option ℚ :=
  match previous, current with
  | none, _ => none
  | some _, none => none
  | some p, some c => if p = 0 then none else some ((c - p) / |p| * 100)

/-- Result dict of `GrowthCalculator.calculate_yoy_growth` /
`GrowthCalculator.calculate_cagr`: `{'value': ..., 'display': ..., 'note': ...}`. -/
structure GrowthResult where
  value : Option ℚ
  display : String
  note : String
deriving DecidableEq, Repr

/-- Round to the nearest integer, ties to even — the rounding of Python's
fixed-point float formatting on exact-decimal values. -/
def roundHalfEven (x : ℚ) : ℤ :=
  let f := ⌊x⌋
  let r := x - f
  if r < 1 / 2 then f
  else if 1 / 2 < r then f + 1
  else if f % 2 = 0 then f else f + 1

/-- Python `f'{x:.1f}'` on an exact-decimal rational. -/
def fmt1f (x : ℚ) : String :=
  let n := roundHalfEven (x * 10)
  let sign := if n < 0 then "-" else ""
  let m := n.natAbs
  sign ++ toString (m / 10) ++ "." ++ toString (m % 10)

/-- `GrowthCalculator.calculate_yoy_growth(current, previous)`.  Note the
returned `value` is a fraction (e.g. `0.5`), while `display` carries the
percentage rendering `f'{growth*100:.1f}%'`. -/
def calculate_yoy_growth (current previous : ℚ) : GrowthResult :=
  if previous = 0 then
    if 0 < current then ⟨none, "N/A", "Cannot calculate YoY from zero base"⟩
    else ⟨some 0, "0.0%", "No change from zero"⟩
  else if previous < 0 ∧ 0 < current then ⟨none, "Turnaround", "From loss to profit"⟩
  else if 0 < previous ∧ current < 0 then ⟨none, "Negative", "From profit to loss"⟩
  else
    let growth := (current - previous) / |previous|
    ⟨some growth, fmt1f (growth * 100) ++ "%", ""⟩

/-- `cagr(start, end, periods)` from `src/financial_metrics.py`:
`((end/start) ** (1/periods) - 1) * 100`, `None` when `start <= 0` or
`periods <= 0`.  The power is a real power (`math.pow`); `math.pow` raises
`ValueError` — caught, giving `None` — exactly when its base `end/start` is
negative and the exponent `1/periods` is not an integer (a rational is an
integer iff its reduced denominator is 1); for integer exponents `Real.rpow`
agrees with `math.pow` on negative bases. -/
noncomputable def cagr (start end_ periods : ℚ) : Option ℝ :=
  if start ≤ 0 ∨ periods ≤ 0 then none
  else if end_ / start < 0 ∧ (1 / periods : ℚ).den ≠ 1 then none
  else some ((((end_ / start : ℚ) : ℝ) ^ ((1 : ℝ) / (periods : ℚ)) - 1) * 100)

/-! ## Normalizer — `src/financial_tabulator.py`

A Python dict is embedded as an association list in insertion order with
unique keys; `norm[key] = v` keeps the original position of an existing key
(`dictInsert`) and appends a fresh key at the end.  A scraped dict value is
`None`, a number, or a string (`PyVal`). -/

inductive PyVal where
  | vNone
  | vNum (q : ℚ)
  | vStr (s : String)
deriving DecidableEq, Repr

abbrev Record := List (String × PyVal)

/-- The keys of `CANONICAL_FIELDS`, in declaration order. -/
def CANONICAL_KEYS : List String :=
  ["ticker", "company", "fiscal_year", "fiscal_quarter", "period_end",
   "revenue", "gross_profit", "operating_income", "net_income",
   "eps_basic", "eps_diluted", "free_cash_flow", "operating_cash_flow",
   "capex", "total_assets", "total_liabilities", "shares_outstanding",
   "currency"]

def ALIASES : List (String × String) :=
  [("fy", "fiscal_year"), ("year", "fiscal_year"),
   ("q", "fiscal_quarter"), ("quarter", "fiscal_quarter"),
   ("date", "period_end"), ("period", "period_end"),
   ("rev", "revenue"), ("sales", "revenue"),
   ("gp", "gross_profit"),
   ("op_income", "operating_income"), ("ebit", "operating_income"),
   ("net", "net_income"), ("net_profit", "net_income"),
   ("ocf", "operating_cash_flow"), ("fcf", "free_cash_flow"),
   ("shares", "shares_outstanding")]

def NUMERIC_FIELDS : List String :=
  ["revenue", "gross_profit", "operating_income", "net_income",
   "eps_basic", "eps_diluted", "free_cash_flow", "operating_cash_flow",
   "capex", "total_assets", "total_liabilities", "shares_outstanding"]

/-- `if key in ALIASES: key = ALIASES[key]`. -/
def aliasKey (k : String) : String :=
  ((ALIASES.find? (fun kv => kv.1 = k)).map Prod.snd).getD k

/-- Dict assignment `d[k] = v`: update in place, or append a fresh key. -/
def dictInsert : Record → String → PyVal → Record
  | [], k, v => [(k, v)]
  | (k', v') :: rest, k, v =>
    if k' = k then (k, v) :: rest else (k', v') :: dictInsert rest k v

/-- `k in d`. -/
def hasKey (d : Record) (k : String) : Bool :=
  d.any (fun kv => kv.1 = k)

/-- `str(v).replace(",", "").replace(" ", "")`. -/
def stripSeps (s : String) : String :=
  String.mk (s.toList.filter (fun c => decide (c ≠ ',' ∧ c ≠ ' ')))

/-- Value of a nonempty digit string. -/
def digitsToNat (cs : List Char) : ℕ :=
  cs.foldl (fun a c => 10 * a + (c.toNat - 48)) 0

/-- Mantissa of a Python float literal: digits with an optional decimal point,
at least one digit overall. -/
def parseUnsignedMantissa (cs : List Char) : Option ℚ :=
  let intPart := cs.takeWhile Char.isDigit
  let rest := cs.dropWhile Char.isDigit
  match rest with
  | [] => if intPart.isEmpty then none else some (digitsToNat intPart)
  | c :: rest' =>
    if c = '.' then
      let fracPart := rest'.takeWhile Char.isDigit
      let rest'' := rest'.dropWhile Char.isDigit
      if rest''.isEmpty then
        if intPart.isEmpty && fracPart.isEmpty then none
        else some ((digitsToNat intPart : ℚ) +
          (digitsToNat fracPart : ℚ) / (10 : ℚ) ^ fracPart.length)
      else none
    else none

/-- Python `float(s)` on finite numeric literals: optional sign, decimal
mantissa, optional `e`/`E` exponent.  (The special literals `inf`/`nan` do
not occur in scraped financial figures and are not modelled.) -/
def pyFloat (s : String) : Option ℚ :=
  let (sign, cs) : ℚ × List Char :=
    match s.toList with
    | '+' :: r => (1, r)
    | '-' :: r => (-1, r)
    | r => (1, r)
  let mant := cs.takeWhile (fun c => decide (c ≠ 'e' ∧ c ≠ 'E'))
  let rest := cs.dropWhile (fun c => decide (c ≠ 'e' ∧ c ≠ 'E'))
  match rest with
  | [] => (parseUnsignedMantissa mant).map (fun m => sign * m)
  | _ :: expCs =>
    let (esign, ds) : ℤ × List Char :=
      match expCs with
      | '+' :: r => (1, r)
      | '-' :: r => (-1, r)
      | r => (1, r)
    if !ds.isEmpty && ds.all Char.isDigit then
      (parseUnsignedMantissa mant).map
        (fun m => sign * m * (10 : ℚ) ^ (esign * (digitsToNat ds : ℤ)))
    else none

/-- The numeric-cast `try` block of `normalize_record` applied to one value:
`s = str(v)` stripped of `","`/`" "`, a trailing `K`/`M`/`B` suffix as a
multiplier, else `float(s)`; any failure yields `None`.  For a value that is
already a float, `str` produces a representation with no separators and no
suffix and `float(str(v))` round-trips it exactly, so the cast is the
identity. -/
def castNumeric (v : PyVal) : PyVal :=
  match v with
  | .vNone => .vNone
  | .vNum q => .vNum q
  | .vStr s0 =>
    let s := stripSeps s0
    let parsed : Option ℚ :=
      if s.endsWith "M" then (pyFloat (s.dropRight 1)).map (fun q => q * 1000000)
      else if s.endsWith "B" then (pyFloat (s.dropRight 1)).map (fun q => q * 1000000000)
      else if s.endsWith "K" then (pyFloat (s.dropRight 1)).map (fun q => q * 1000)
      else pyFloat s
    match parsed with
    | some q => .vNum q
    | none => .vNone

/-- One step of the alias-mapping loop `for k, v in record.items(): ...`. -/
def normStep (acc : Record) (kv : String × PyVal) : Record :=
  let key := aliasKey kv.1
  if key ∈ CANONICAL_KEYS then dictInsert acc key kv.2 else acc

/-- One step of `for k in CANONICAL_FIELDS.keys(): if k not in norm: norm[k] = None`. -/
def fillStep (acc : Record) (k : String) : Record :=
  if hasKey acc k then acc else acc ++ [(k, PyVal.vNone)]

/-- The in-place numeric cast `for k in list(norm.keys()): if k in
NUMERIC_FIELDS and norm[k] is not None: ...`. -/
def castStep (kv : String × PyVal) : String × PyVal :=
  if kv.1 ∈ NUMERIC_FIELDS ∧ kv.2 ≠ PyVal.vNone then (kv.1, castNumeric kv.2) else kv

/-- `normalize_record` from `src/financial_tabulator.py`. -/
def normalize_record (r : Record) : Record :=
  (CANONICAL_KEYS.foldl fillStep (r.foldl normStep [])).map castStep

/-! ## Reconciler — `src/final_integration_pipeline.py`

`IntegrationPipeline.combine` suffixes the non-key columns of the two frames,
outer-merges on `KEY = [ticker, fiscal_year, fiscal_quarter, period_end,
currency]` and resolves each tracked value column with
`preferred.combine_first(other)`.  We embed the claim's scope: two single-row
tables sharing the join key, whose outer merge is the single aligned row. -/

/-- The five merge-key columns. -/
structure JoinKey where
  ticker : Option String
  fiscal_year : Option ℤ
  fiscal_quarter : Option String
  period_end : Option String
  currency : Option String
deriving DecidableEq, Repr

/-- The default tracked `value_cols` of `IntegrationPipeline`. -/
inductive ValueCol where
  | revenue
  | gross_profit
  | operating_income
  | net_income
  | operating_cash_flow
  | capex
  | free_cash_flow
deriving DecidableEq, Repr

/-- One tabulated row: the join key plus the tracked value columns. -/
structure Row where
  key : JoinKey
  vals : ValueCol → Option ℚ

/-- `pandas.Series.combine_first` on two aligned scalar cells: the first
non-null value. -/
def combine_first {α : Type} (a b : Option α) : Option α :=
  match a with
  | some x => some x
  | none => b

/-- `IntegrationPipeline.combine(scraped_df, edgar_df, prefer)` restricted to
two single-row frames sharing the join key: per tracked column, the preferred
frame's value wins unless null (`prefer == "edgar"` selects the edgar frame,
any other string the scraped frame, as in the source's `if prefer == "edgar"`).
The growth/CAGR enrichment appends new columns and leaves the tracked ones
unchanged. -/
def combine_single (scraped edgar : Row) (prefer : String) : Row :=
  { key := scraped.key
    vals := fun c =>
      if prefer = "edgar" then combine_first (edgar.vals c) (scraped.vals c)
      else combine_first (scraped.vals c) (edgar.vals c) }

/-! ## Concrete extraction results used in witnesses and counterexamples -/

/-- A primary result that carries data but is flagged `needs_fallback`
(the shape `{'annual': [...], 'needs_fallback': True}`). -/
def primaryFlagged : ExtractionResult :=
  ⟨[⟨2023, "", 100⟩], [], some "primary_sec_api", none, true, none⟩

/-- A successful Tier 1 result. -/
def tier1Data : ExtractionResult :=
  ⟨[⟨2023, "", 200⟩], [], some "tier1_filing_parse", none, false, none⟩

/-- A successful Tier 2 result. -/
def tier2Data : ExtractionResult :=
  ⟨[⟨2022, "", 300⟩], [], some "tier2_local_cache", none, false, none⟩

/-- A failed result with zero records and the given error message, the shape
`{'annual': [], 'quarterly': [], 'error': msg}` the tiers return on failure. -/
def failedResult (msg : String) : ExtractionResult :=
  ⟨[], [], none, some msg, true, none⟩

/-- A shared join key for the reconciliation examples. -/
def rowKeyEx : JoinKey := ⟨some "AAPL", some 2023, none, none, some "USD"⟩

/-- Source A's row with `revenue = 100` and all other tracked columns null. -/
def rowA : Row := ⟨rowKeyEx, fun c => match c with | .revenue => some 100 | _ => none⟩

/-- Source A's row with `revenue = null`. -/
def rowANull : Row := ⟨rowKeyEx, fun _ => none⟩

/-- Source B's row with `revenue = 200`. -/
def rowB : Row := ⟨rowKeyEx, fun c => match c with | .revenue => some 200 | _ => none⟩

/-!
# Theorems

Helper lemmas first, then one theorem per claim (with witnesses and
counterexamples where required).
-/

/-! ## Circuit-breaker lemmas -/

theorem dropWhile_eq_self_of_forall {α : Type} {p : α → Bool} {l : List α}
    (h : ∀ x ∈ l, p x = false) : l.dropWhile p = l := by
  cases l with
  | nil => rfl
  | cons a l => simp [List.dropWhile_cons, h a (by simp)]

theorem length_dropWhile_le {α : Type} (p : α → Bool) (l : List α) :
    (l.dropWhile p).length ≤ l.length := by
  induction l with
  | nil => simp
  | cons a l ih =>
    by_cases h : p a <;> simp [List.dropWhile_cons, h] <;> omega

theorem record_failure_fail_events (cfg : Cfg) (now : ℚ) (st : KeyState) :
    (Breaker.record_failure cfg now st).fail_events =
      st.fail_events.dropWhile (fun t => t < now - cfg.window_sec) ++ [now] := by
  unfold Breaker.record_failure Breaker.prune_old_failures
  dsimp only
  split <;> rfl

theorem record_failure_not_open (cfg : Cfg) (now : ℚ) (st : KeyState)
    (h : (st.fail_events.dropWhile (fun t => t < now - cfg.window_sec)).length + 1 <
      cfg.fail_threshold) :
    (Breaker.record_failure cfg now st).state = st.state ∧
    (Breaker.record_failure cfg now st).fail_events =
      st.fail_events.dropWhile (fun t => t < now - cfg.window_sec) ++ [now] := by
  have hc : ¬ cfg.fail_threshold ≤
      (st.fail_events.dropWhile (fun t => t < now - cfg.window_sec)).length + 1 := by
    omega
  unfold Breaker.record_failure Breaker.prune_old_failures
  simp [hc]

theorem record_failure_open (cfg : Cfg) (now : ℚ) (st : KeyState)
    (h : cfg.fail_threshold ≤
      (st.fail_events.dropWhile (fun t => t < now - cfg.window_sec)).length + 1) :
    (Breaker.record_failure cfg now st).state = .«open» ∧
    (Breaker.record_failure cfg now st).open_until = now + cfg.open_sec ∧
    (Breaker.record_failure cfg now st).fail_events =
      st.fail_events.dropWhile (fun t => t < now - cfg.window_sec) ++ [now] := by
  unfold Breaker.record_failure Breaker.prune_old_failures
  simp [h]

theorem runFailures_cons (cfg : Cfg) (t : ℚ) (ts : List ℚ) (st : KeyState) :
    Breaker.runFailures cfg (t :: ts) st =
      Breaker.runFailures cfg ts (Breaker.record_failure cfg t st) := rfl

theorem allow_open_eq (cfg : Cfg) (now : ℚ) (st : KeyState) (h : st.state = .«open») :
    Breaker.allow cfg now st = decide (st.open_until < now) := by
  unfold Breaker.allow
  rw [h]

theorem allow_halfOpen_eq (cfg : Cfg) (now : ℚ) (st : KeyState) (h : st.state = .halfOpen) :
    Breaker.allow cfg now st = decide (st.halfopen_inflight < cfg.halfopen_max) := by
  unfold Breaker.allow
  rw [h]

/-- A closed breaker with fewer than `fail_threshold` window failures plus
pending calls stays closed. -/
theorem closed_stays_closed (cfg : Cfg) (ts : List ℚ) : ∀ (st : KeyState),
    st.state = .closed → st.fail_events.length + ts.length < cfg.fail_threshold →
    (Breaker.runFailures cfg ts st).state = .closed := by
  induction ts with
  | nil =>
    intro st h _
    simpa [Breaker.runFailures] using h
  | cons t ts ih =>
    intro st hst hlen
    rw [runFailures_cons]
    have hle := length_dropWhile_le (fun s => decide (s < t - cfg.window_sec)) st.fail_events
    have hlt : (st.fail_events.dropWhile (fun s => s < t - cfg.window_sec)).length + 1 <
        cfg.fail_threshold := by
      simp only [List.length_cons] at hlen
      omega
    obtain ⟨h1, h2⟩ := record_failure_not_open cfg t st hlt
    refine ih _ (h1.trans hst) ?_
    rw [h2]
    simp only [List.length_append, List.length_cons, List.length_nil]
    simp only [List.length_cons] at hlen
    omega

/-- When no existing failure is stale for any of the upcoming timestamps,
`record_failure` never prunes and the window accumulates every timestamp. -/
theorem runFailures_fail_events (cfg : Cfg) : ∀ (ts : List ℚ) (st : KeyState),
    (∀ s ∈ st.fail_events, ∀ t ∈ ts, ¬ s < t - cfg.window_sec) →
    (∀ a ∈ ts, ∀ b ∈ ts, ¬ a < b - cfg.window_sec) →
    (Breaker.runFailures cfg ts st).fail_events = st.fail_events ++ ts := by
  intro ts
  induction ts with
  | nil =>
    intro st _ _
    simp [Breaker.runFailures]
  | cons t ts ih =>
    intro st h1 h2
    rw [runFailures_cons]
    have hpr : st.fail_events.dropWhile (fun s => s < t - cfg.window_sec) = st.fail_events :=
      dropWhile_eq_self_of_forall (fun s hs => by
        simpa using h1 s hs t (by simp))
    have hev : (Breaker.record_failure cfg t st).fail_events = st.fail_events ++ [t] := by
      rw [record_failure_fail_events, hpr]
    have := ih (Breaker.record_failure cfg t st)
      (by
        rw [hev]
        intro s hs u hu
        rcases List.mem_append.1 hs with hs' | hs'
        · exact h1 s hs' u (by simp [hu])
        · have : s = t := by simpa using hs'
          subst this
          exact h2 s (by simp) u (by simp [hu]))
      (fun a ha b hb => h2 a (by simp [ha]) b (by simp [hb]))
    rw [this, hev, List.append_assoc]
    rfl

/-! ## Claims C3, C4, C10 -/

/-- **C3.** After `fail_threshold` calls to `record_failure` whose timestamps
all lie within one `window_sec` sliding window, the key's circuit is open with
`open_until` set `open_sec` after the opening failure, and `allow` returns
`false` at every instant up to that deadline.  Moreover failures older than
`window_sec` are pruned and do not count toward the threshold: recording a
failure over a window of entirely stale timestamps leaves only the fresh one
and (for `fail_threshold ≥ 2`) does not open the circuit. -/
theorem C3_breaker_opens_after_threshold (cfg : Cfg) (ts : List ℚ) (hne : ts ≠ [])
    (hlen : ts.length = cfg.fail_threshold)
    (hwin : ∀ a ∈ ts, ∀ b ∈ ts, b - a ≤ cfg.window_sec) :
    (Breaker.runFailures cfg ts KeyState.init).state = .«open» ∧
    (Breaker.runFailures cfg ts KeyState.init).open_until =
      ts.getLast hne + cfg.open_sec ∧
    (∀ now, now ≤ ts.getLast hne + cfg.open_sec →
      Breaker.allow cfg now (Breaker.runFailures cfg ts KeyState.init) = false) ∧
    (∀ (st : KeyState) (now : ℚ),
      (∀ t ∈ st.fail_events, t < now - cfg.window_sec) →
      2 ≤ cfg.fail_threshold →
      (Breaker.record_failure cfg now st).state = st.state ∧
      (Breaker.record_failure cfg now st).fail_events = [now]) := by
  have hlast := List.getLast_mem hne
  have hsplit := List.dropLast_append_getLast hne
  set tn := ts.getLast hne with htn
  -- The run splits into the first `fail_threshold - 1` failures and the last one.
  have hrun : Breaker.runFailures cfg ts KeyState.init =
      Breaker.record_failure cfg tn (Breaker.runFailures cfg ts.dropLast KeyState.init) := by
    conv_lhs => rw [← hsplit]
    unfold Breaker.runFailures
    rw [List.foldl_append]
    rfl
  have hmem : ∀ a ∈ ts.dropLast, a ∈ ts := fun a ha => (List.dropLast_sublist ts).mem ha
  have hmid : (Breaker.runFailures cfg ts.dropLast KeyState.init).fail_events =
      ts.dropLast := by
    have := runFailures_fail_events cfg ts.dropLast KeyState.init
      (by intro s hs; simp [KeyState.init] at hs)
      (by
        intro a ha b hb
        have := hwin a (hmem a ha) b (hmem b hb)
        simp only [not_lt]
        linarith)
    simpa [KeyState.init] using this
  have hnoprune : ∀ s ∈ ts.dropLast, ¬ s < tn - cfg.window_sec := by
    intro s hs
    have := hwin s (hmem s hs) tn hlast
    simp only [not_lt]
    linarith
  have hthr : cfg.fail_threshold ≤
      ((Breaker.runFailures cfg ts.dropLast KeyState.init).fail_events.dropWhile
        (fun t => t < tn - cfg.window_sec)).length + 1 := by
    rw [hmid, dropWhile_eq_self_of_forall (fun s hs => by simpa using hnoprune s hs)]
    have h1 : (0 : ℕ) < ts.length := List.length_pos.2 hne
    rw [List.length_dropLast]
    omega
  obtain ⟨hstate, huntil, _⟩ :=
    record_failure_open cfg tn (Breaker.runFailures cfg ts.dropLast KeyState.init) hthr
  rw [hrun] at *
  refine ⟨hstate, huntil, ?_, ?_⟩
  · intro now hnow
    rw [allow_open_eq cfg now _ hstate, huntil]
    simp only [decide_eq_false_iff_not, not_lt]
    exact hnow
  · intro st now hstale hthr2
    have hpr : st.fail_events.dropWhile (fun t => t < now - cfg.window_sec) = [] := by
      rw [List.dropWhile_eq_nil_iff]
      intro x hx
      simpa using hstale x hx
    have hlt : (st.fail_events.dropWhile (fun t => t < now - cfg.window_sec)).length + 1 <
        cfg.fail_threshold := by
      rw [hpr]
      simpa using hthr2
    obtain ⟨h1, h2⟩ := record_failure_not_open cfg now st hlt
    rw [hpr] at h2
    exact ⟨h1, h2⟩

/-- Witness for C3 at the Python defaults: five failures at time 0 open the
circuit and `allow` is still false at time 60. -/
theorem C3_breaker_opens_after_threshold_witness :
    (Breaker.runFailures Cfg.default [0, 0, 0, 0, 0] KeyState.init).state = .«open» ∧
    Breaker.allow Cfg.default 60
      (Breaker.runFailures Cfg.default [0, 0, 0, 0, 0] KeyState.init) = false := by
  have h := C3_breaker_opens_after_threshold Cfg.default [0, 0, 0, 0, 0]
    (by simp) (by rfl)
    (by
      intro a ha b hb
      simp only [List.mem_cons, List.not_mem_nil, or_false] at ha hb
      rcases ha with rfl | rfl | rfl | rfl | rfl <;>
        rcases hb with rfl | rfl | rfl | rfl | rfl <;>
        norm_num [Cfg.default])
  refine ⟨h.1, h.2.2.1 60 ?_⟩
  norm_num [Cfg.default, List.getLast]

/-- **C4 (counterexample).** With the default parameters, a probe failure in
the half-open state does *not* re-open the circuit: five failures at time 0
open the key, the cooldown elapses at time 61 and `on_attempt` moves it to
half-open, but `record_failure` at 61 first prunes the five stale timestamps,
leaving one failure in the window — below the threshold — so the key stays
half-open instead of returning to open. -/
theorem C4_counterexample :
    (Breaker.runFailures Cfg.default [0, 0, 0, 0, 0] KeyState.init).state = BState.«open» ∧
    (Breaker.on_attempt Cfg.default 61
      (Breaker.runFailures Cfg.default [0, 0, 0, 0, 0] KeyState.init)).state =
      BState.halfOpen ∧
    (Breaker.record_failure Cfg.default 61
      (Breaker.on_attempt Cfg.default 61
        (Breaker.runFailures Cfg.default [0, 0, 0, 0, 0] KeyState.init))).state =
      BState.halfOpen ∧
    BState.halfOpen ≠ BState.«open» := by
  refine ⟨?_, ?_, ?_, by simp⟩ <;>
    norm_num [Breaker.runFailures, Breaker.record_failure, Breaker.prune_old_failures,
      Breaker.on_attempt, Cfg.default, KeyState.init, List.dropWhile]

/-- **C4 (amended).** Once the cooldown has elapsed, `on_attempt` moves an
open key to half-open and counts the probe; while half-open, `allow` returns
false exactly when `halfopen_inflight` has reached `halfopen_max`; a
successful probe (`record_success`) returns the key to closed with the
inflight counter reset; and a failed probe (`record_failure`) returns it to
open with a fresh `open_until = now + open_sec` cooldown **only when** the
pruned failure window (including the new failure) again reaches
`fail_threshold` — otherwise the key remains half-open. -/
theorem C4_amended_halfopen_probes (cfg : Cfg) (st : KeyState) (now : ℚ) :
    (st.state = .«open» → st.open_until < now →
      (Breaker.on_attempt cfg now st).state = .halfOpen ∧
      (Breaker.on_attempt cfg now st).halfopen_inflight = st.halfopen_inflight + 1) ∧
    (st.state = .halfOpen →
      (Breaker.allow cfg now st = false ↔ cfg.halfopen_max ≤ st.halfopen_inflight)) ∧
    ((Breaker.record_success st).state = .closed ∧
      (Breaker.record_success st).halfopen_inflight = 0) ∧
    (st.state = .halfOpen →
      cfg.fail_threshold ≤
        (st.fail_events.dropWhile (fun t => t < now - cfg.window_sec)).length + 1 →
      (Breaker.record_failure cfg now st).state = .«open» ∧
      (Breaker.record_failure cfg now st).open_until = now + cfg.open_sec) ∧
    (st.state = .halfOpen →
      (st.fail_events.dropWhile (fun t => t < now - cfg.window_sec)).length + 1 <
        cfg.fail_threshold →
      (Breaker.record_failure cfg now st).state = .halfOpen) := by
  refine ⟨?_, ?_, ⟨rfl, rfl⟩, ?_, ?_⟩
  · intro hst hlt
    unfold Breaker.on_attempt
    simp [hst, hlt]
  · intro hst
    rw [allow_halfOpen_eq cfg now st hst]
    simp [decide_eq_false_iff_not, not_lt]
  · intro _ hthr
    obtain ⟨h1, h2, _⟩ := record_failure_open cfg now st hthr
    exact ⟨h1, h2⟩
  · intro hst hlt
    obtain ⟨h1, _⟩ := record_failure_not_open cfg now st hlt
    rw [h1, hst]

/-- Witness for C4 (amended): with the default parameters, a key opened at
time 0 transitions to half-open on an attempt at time 61 (the probe is
counted), and a second concurrent probe would be rejected. -/
theorem C4_amended_halfopen_probes_witness :
    (Breaker.on_attempt Cfg.default 61 ⟨[0, 0, 0, 0, 0], .«open», 60, 0⟩).state =
      BState.halfOpen ∧
    (Breaker.on_attempt Cfg.default 61 ⟨[0, 0, 0, 0, 0], .«open», 60, 0⟩).halfopen_inflight = 1 ∧
    (Breaker.allow Cfg.default 62 ⟨[0, 0, 0, 0, 0], .halfOpen, 60, 1⟩ = false ↔
      Cfg.default.halfopen_max ≤ 1) := by
  have h1 := (C4_amended_halfopen_probes Cfg.default ⟨[0, 0, 0, 0, 0], .«open», 60, 0⟩ 61).1
    rfl (by norm_num)
  have h2 := (C4_amended_halfopen_probes Cfg.default
    ⟨[0, 0, 0, 0, 0], .halfOpen, 60, 1⟩ 62).2.1 rfl
  exact ⟨h1.1, h1.2, h2⟩

/-- **C10.** `record_success` resets the key to closed, zeroes the half-open
inflight counter and empties the failure window; immediately afterwards
`allow` returns true, and any run of fewer than `fail_threshold` fresh
failures leaves the circuit closed. -/
theorem C10_record_success_resets (cfg : Cfg) (st : KeyState) (now : ℚ)
    (ts : List ℚ) (hts : ts.length < cfg.fail_threshold) :
    (Breaker.record_success st).state = .closed ∧
    (Breaker.record_success st).halfopen_inflight = 0 ∧
    (Breaker.record_success st).fail_events = [] ∧
    Breaker.allow cfg now (Breaker.record_success st) = true ∧
    (Breaker.runFailures cfg ts (Breaker.record_success st)).state = .closed := by
  refine ⟨rfl, rfl, rfl, rfl, ?_⟩
  exact closed_stays_closed cfg ts (Breaker.record_success st) rfl
    (by simpa [Breaker.record_success] using hts)

/-- Witness for C10: a half-open key with five stale failures is fully reset
by one `record_success`; four fresh failures do not re-open it. -/
theorem C10_record_success_resets_witness :
    (Breaker.record_success ⟨[0, 1, 2], .halfOpen, 60, 1⟩).state = BState.closed ∧
    (Breaker.record_success ⟨[0, 1, 2], .halfOpen, 60, 1⟩).halfopen_inflight = 0 ∧
    (Breaker.record_success ⟨[0, 1, 2], .halfOpen, 60, 1⟩).fail_events = [] ∧
    Breaker.allow Cfg.default 100 (Breaker.record_success ⟨[0, 1, 2], .halfOpen, 60, 1⟩) = true ∧
    (Breaker.runFailures Cfg.default [100, 101, 102, 103]
      (Breaker.record_success ⟨[0, 1, 2], .halfOpen, 60, 1⟩)).state = BState.closed :=
  C10_record_success_resets Cfg.default ⟨[0, 1, 2], .halfOpen, 60, 1⟩ 100
    [100, 101, 102, 103] (by simp [Cfg.default])

/-! ## Claims C1, C2 — fallback cascade -/

/-- **C1 (counterexample).** A primary result with a non-empty `annual` list
("usable data" in the claim's sense) is *not* returned when its
`needs_fallback` flag is set: the cascade proceeds and returns Tier 1's
result, with Tier 1's `extraction_method`. -/
theorem C1_counterexample :
    primaryFlagged.hasData = true ∧
    revenue_fallback_cascade primaryFlagged tier1Data
      (failedResult "Tier 2 failed") (failedResult "Tier 3 failed") = tier1Data ∧
    tier1Data ≠ primaryFlagged ∧
    tier1Data.extraction_method ≠ primaryFlagged.extraction_method := by
  refine ⟨rfl, rfl, ?_, ?_⟩ <;> decide

/-- **C1 (amended).** The cascade returns the primary result immediately when
it has usable data *and* its `needs_fallback` flag is not set; otherwise
(including when the primary has data but is flagged `needs_fallback`) it
returns the result of the first tier, in the strict order Tier 1 → Tier 2 →
Tier 3, whose result has at least one annual or quarterly record; in
particular, when Tier 1 fails and Tier 2 succeeds, the returned
`extraction_method` equals Tier 2's. -/
theorem C1_amended_cascade_order (p t1 t2 t3 : ExtractionResult) :
    (p.hasData = true → p.needs_fallback = false →
      revenue_fallback_cascade p t1 t2 t3 = p) ∧
    (p.hasData = false ∨ p.needs_fallback = true →
      (t1.hasData = true → revenue_fallback_cascade p t1 t2 t3 = t1) ∧
      (t1.hasData = false → t2.hasData = true →
        revenue_fallback_cascade p t1 t2 t3 = t2 ∧
        (revenue_fallback_cascade p t1 t2 t3).extraction_method = t2.extraction_method) ∧
      (t1.hasData = false → t2.hasData = false → t3.hasData = true →
        revenue_fallback_cascade p t1 t2 t3 = t3)) := by
  constructor
  · intro h1 h2
    simp [revenue_fallback_cascade, h1, h2]
  · intro hor
    have hcond : (p.hasData && !p.needs_fallback) = false := by
      rcases hor with h | h <;> simp [h]
    refine ⟨?_, ?_, ?_⟩
    · intro ht1
      simp [revenue_fallback_cascade, hcond, ht1]
    · intro ht1 ht2
      simp [revenue_fallback_cascade, hcond, ht1, ht2]
    · intro ht1 ht2 ht3
      simp [revenue_fallback_cascade, hcond, ht1, ht2, ht3]

/-- Witness for C1 (amended): primary and Tier 1 fail, Tier 2 succeeds — the
cascade returns Tier 2's result and its `extraction_method`. -/
theorem C1_amended_cascade_order_witness :
    revenue_fallback_cascade (failedResult "Primary extraction failed")
      (failedResult "Tier 1 failed") tier2Data (failedResult "Tier 3 failed") = tier2Data ∧
    (revenue_fallback_cascade (failedResult "Primary extraction failed")
      (failedResult "Tier 1 failed") tier2Data
      (failedResult "Tier 3 failed")).extraction_method = tier2Data.extraction_method :=
  ((C1_amended_cascade_order (failedResult "Primary extraction failed")
    (failedResult "Tier 1 failed") tier2Data (failedResult "Tier 3 failed")).2
    (Or.inl rfl)).2.1 rfl rfl

/-- **C2.** If the primary result and all three tiers yield zero annual and
zero quarterly records, the cascade returns (it does not raise) a structured
failure whose `annual` and `quarterly` are empty, whose `error` field is
present, and whose `tier_results` map carries each of the four sources'
individual error messages (defaulting to `"Unknown"` when a source recorded
none). -/
theorem C2_structured_failure (p t1 t2 t3 : ExtractionResult)
    (hp : p.annual = [] ∧ p.quarterly = [])
    (h1 : t1.annual = [] ∧ t1.quarterly = [])
    (h2 : t2.annual = [] ∧ t2.quarterly = [])
    (h3 : t3.annual = [] ∧ t3.quarterly = []) :
    (revenue_fallback_cascade p t1 t2 t3).annual = [] ∧
    (revenue_fallback_cascade p t1 t2 t3).quarterly = [] ∧
    (revenue_fallback_cascade p t1 t2 t3).error.isSome = true ∧
    (revenue_fallback_cascade p t1 t2 t3).tier_results =
      some ⟨p.error.getD "Unknown", t1.error.getD "Unknown",
        t2.error.getD "Unknown", t3.error.getD "Unknown"⟩ := by
  have hpd : p.hasData = false := by
    simp [ExtractionResult.hasData, hp.1, hp.2]
  have h1d : t1.hasData = false := by
    simp [ExtractionResult.hasData, h1.1, h1.2]
  have h2d : t2.hasData = false := by
    simp [ExtractionResult.hasData, h2.1, h2.2]
  have h3d : t3.hasData = false := by
    simp [ExtractionResult.hasData, h3.1, h3.2]
  simp [revenue_fallback_cascade, hpd, h1d, h2d, h3d]

/-- Witness for C2: four concrete failing results — the cascade returns the
structured failure carrying each individual error message. -/
theorem C2_structured_failure_witness :
    (revenue_fallback_cascade (failedResult "Primary extraction failed")
      (failedResult "Tier 1 failed") (failedResult "Tier 2 failed")
      (failedResult "Tier 3 failed")).annual = [] ∧
    (revenue_fallback_cascade (failedResult "Primary extraction failed")
      (failedResult "Tier 1 failed") (failedResult "Tier 2 failed")
      (failedResult "Tier 3 failed")).quarterly = [] ∧
    (revenue_fallback_cascade (failedResult "Primary extraction failed")
      (failedResult "Tier 1 failed") (failedResult "Tier 2 failed")
      (failedResult "Tier 3 failed")).error.isSome = true ∧
    (revenue_fallback_cascade (failedResult "Primary extraction failed")
      (failedResult "Tier 1 failed") (failedResult "Tier 2 failed")
      (failedResult "Tier 3 failed")).tier_results =
      some ⟨"Primary extraction failed", "Tier 1 failed", "Tier 2 failed",
        "Tier 3 failed"⟩ :=
  C2_structured_failure (failedResult "Primary extraction failed")
    (failedResult "Tier 1 failed") (failedResult "Tier 2 failed")
    (failedResult "Tier 3 failed") ⟨rfl, rfl⟩ ⟨rfl, rfl⟩ ⟨rfl, rfl⟩ ⟨rfl, rfl⟩

/-! ## Claim C8 — `_deduplicate_periods` -/

/-- The `seen`-set loop keeps pairwise-distinct keys, none of them in `seen`. -/
theorem dedupLoop_pairwise {κ : Type} [DecidableEq κ] (key : Period → κ) :
    ∀ (l : List Period) (seen : List κ),
      (dedupLoop key l seen).Pairwise (fun a b => key a ≠ key b) ∧
      ∀ p ∈ dedupLoop key l seen, key p ∉ seen := by
  intro l
  induction l with
  | nil =>
    intro seen
    exact ⟨List.Pairwise.nil, by simp [dedupLoop]⟩
  | cons p rest ih =>
    intro seen
    by_cases h : key p ∈ seen
    · rw [dedupLoop, if_pos h]
      exact ih seen
    · rw [dedupLoop, if_neg h]
      obtain ⟨hpw, hnot⟩ := ih (key p :: seen)
      refine ⟨List.pairwise_cons.2 ⟨?_, hpw⟩, ?_⟩
      · intro b hb
        have := hnot b hb
        simp only [List.mem_cons, not_or] at this
        exact fun e => this.1 e.symm
      · intro q hq
        rcases List.mem_cons.1 hq with rfl | hq'
        · exact h
        · have := hnot q hq'
          simp only [List.mem_cons, not_or] at this
          exact this.2

/-- Core properties of dedup + stable descending sort + cap, generic in the
deduplication key and the cap. -/
theorem dedup_take_props {κ : Type} [DecidableEq κ] (key : Period → κ)
    (l : List Period) (n : ℕ) :
    ((((dedupLoop key l []).mergeSort
        (fun a b => decide (b.fiscal_year ≤ a.fiscal_year))).take n).length ≤ n) ∧
    (((dedupLoop key l []).mergeSort
        (fun a b => decide (b.fiscal_year ≤ a.fiscal_year))).take n).Pairwise
      (fun a b => b.fiscal_year ≤ a.fiscal_year) ∧
    (((dedupLoop key l []).mergeSort
        (fun a b => decide (b.fiscal_year ≤ a.fiscal_year))).take n).Pairwise
      (fun a b => key a ≠ key b) := by
  refine ⟨List.length_take_le n _, ?_, ?_⟩
  · have hs := @List.sorted_mergeSort Period
      (fun a b : Period => decide (b.fiscal_year ≤ a.fiscal_year))
      (fun a b c hab hbc => by
        simp only [decide_eq_true_eq] at *
        omega)
      (fun a b => by
        simp only [Bool.or_eq_true, decide_eq_true_eq]
        exact le_total b.fiscal_year a.fiscal_year)
      (dedupLoop key l [])
    have hs' : ((dedupLoop key l []).mergeSort
        (fun a b => decide (b.fiscal_year ≤ a.fiscal_year))).Pairwise
        (fun a b => b.fiscal_year ≤ a.fiscal_year) :=
      hs.imp (fun h => by simpa using h)
    exact List.Pairwise.sublist (List.take_sublist n _) hs'
  · have hdp := (dedupLoop_pairwise key l []).1
    have hperm := List.mergeSort_perm (dedupLoop key l [])
      (fun a b => decide (b.fiscal_year ≤ a.fiscal_year))
    have hmp : ((dedupLoop key l []).mergeSort
        (fun a b => decide (b.fiscal_year ≤ a.fiscal_year))).Pairwise
        (fun a b => key a ≠ key b) :=
      (hperm.pairwise_iff (fun h e => h e.symm)).2 hdp
    exact List.Pairwise.sublist (List.take_sublist n _) hmp

/-- **C8.** Each tier's deduplicated output has at most 5 annual and at most
20 quarterly records, is ordered most recent first (nonincreasing fiscal
year), and contains no two records with the same deduplication key
(`(fiscal_year, value)` for annual, `(fiscal_year, fiscal_quarter, value)`
for quarterly). -/
theorem C8_dedup_caps_sorted_unique (l : List Period) :
    (deduplicate_periods l .annual).length ≤ 5 ∧
    (deduplicate_periods l .quarterly).length ≤ 20 ∧
    (deduplicate_periods l .annual).Pairwise
      (fun a b => b.fiscal_year ≤ a.fiscal_year) ∧
    (deduplicate_periods l .quarterly).Pairwise
      (fun a b => b.fiscal_year ≤ a.fiscal_year) ∧
    (deduplicate_periods l .annual).Pairwise (fun a b => dedupKeyA a ≠ dedupKeyA b) ∧
    (deduplicate_periods l .quarterly).Pairwise (fun a b => dedupKeyQ a ≠ dedupKeyQ b) := by
  obtain ⟨a1, a2, a3⟩ := dedup_take_props dedupKeyA l 5
  obtain ⟨b1, b2, b3⟩ := dedup_take_props dedupKeyQ l 20
  exact ⟨a1, b1, a2, b2, a3, b3⟩

/-! ## Claims C5, C6 — growth and CAGR edge cases -/

/-- **C5 (counterexample).** `percent_growth(previous=-10, current=5)`
returns the numeric value `150.0` (`(current − previous)/|previous| × 100`),
not a turnaround marker. -/
theorem C5_counterexample :
    percent_growth (some (-10)) (some 5) = some 150 := by
  norm_num [percent_growth]

/-- **C5 (amended).** `percent_growth(0, 50)` is null and
`percent_growth(100, 150) = 50.0`, but `percent_growth(-10, 5)` is the
numeric ratio `150.0` relative to `|previous|`; the turnaround marker is
produced only by `GrowthCalculator.calculate_yoy_growth`, which for
`previous=-10, current=5` returns a null `value` with display `"Turnaround"`
(and is also null at a zero base), and whose numeric `value` is a fraction —
for `previous=100, current=150` it is `0.5`, displayed as `"50.0%"`. -/
theorem C5_amended_growth_edge_cases :
    percent_growth (some 0) (some 50) = none ∧
    percent_growth (some 100) (some 150) = some 50 ∧
    percent_growth (some (-10)) (some 5) = some 150 ∧
    calculate_yoy_growth 5 (-10) =
      ⟨none, "Turnaround", "From loss to profit"⟩ ∧
    (calculate_yoy_growth 50 0).value = none ∧
    calculate_yoy_growth 150 100 = ⟨some (1 / 2), "50.0%", ""⟩ := by
  refine ⟨by norm_num [percent_growth], by norm_num [percent_growth],
    by norm_num [percent_growth], by norm_num [calculate_yoy_growth],
    by norm_num [calculate_yoy_growth], ?_⟩
  have hg : ((150 : ℚ) - 100) / |(100 : ℚ)| = 1 / 2 := by
    norm_num
  have hf : fmt1f 50 = "50.0" := by
    have hr : roundHalfEven ((50 : ℚ) * 10) = 500 := by
      norm_num [roundHalfEven]
    simp only [fmt1f, hr]
    rfl
  norm_num [calculate_yoy_growth, hg, hf]
  rfl

/-- **C6.** The CAGR operation of `src/financial_metrics.py` is undefined
(`None`) whenever `start ≤ 0` or `periods ≤ 0` — in particular at
`(0, 100, 3)` — and `cagr(100, 100, 5) = 0.0`, `cagr(100, 200, 1) = 100.0`. -/
theorem C6_cagr_boundary :
    cagr 0 100 3 = none ∧
    cagr 100 100 5 = some 0 ∧
    cagr 100 200 1 = some 100 ∧
    (∀ s e p : ℚ, s ≤ 0 ∨ p ≤ 0 → cagr s e p = none) := by
  refine ⟨by norm_num [cagr], ?_, ?_, ?_⟩
  · have hb : (((100 : ℚ) / 100 : ℚ) : ℝ) = 1 := by norm_num
    rw [cagr, if_neg (by norm_num), if_neg (by norm_num), hb, Real.one_rpow]
    norm_num
  · have hb : (((200 : ℚ) / 100 : ℚ) : ℝ) = 2 := by norm_num
    have he : (1 : ℝ) / ((1 : ℚ) : ℝ) = 1 := by norm_num
    rw [cagr, if_neg (by norm_num), if_neg (by norm_num), hb, he, Real.rpow_one]
    norm_num
  · intro s e p h
    rw [cagr, if_pos h]

/-- Witness for C6 at a strictly negative base value. -/
theorem C6_cagr_boundary_witness : cagr (-5) 100 3 = none :=
  C6_cagr_boundary.2.2.2 (-5) 100 3 (Or.inl (by norm_num))

/-! ## Claim C7 — reconciliation precedence -/

/-- **C7.** For two single-row tables sharing the join key, the merged value
of each tracked column is the preferred source's value when non-null and the
other source's value otherwise, and is always one of the two sources' values
(never a numeric blend).  `prefer = "edgar"` selects the edgar frame as
source A, any other preference string the scraped frame. -/
theorem C7_reconciliation_precedence (s e : Row) (c : ValueCol)
    (hk : s.key = e.key) :
    ((s.vals c).isSome = true →
      (combine_single s e "scraped").vals c = s.vals c) ∧
    (s.vals c = none → (combine_single s e "scraped").vals c = e.vals c) ∧
    ((e.vals c).isSome = true →
      (combine_single s e "edgar").vals c = e.vals c) ∧
    (e.vals c = none → (combine_single s e "edgar").vals c = s.vals c) ∧
    (∀ prefer : String, (combine_single s e prefer).vals c = s.vals c ∨
      (combine_single s e prefer).vals c = e.vals c) := by
  refine ⟨?_, ?_, ?_, ?_, ?_⟩
  · intro h
    cases hs : s.vals c with
    | none => rw [hs] at h; simp at h
    | some x => simp [combine_single, combine_first, hs]
  · intro h
    simp [combine_single, combine_first, h]
  · intro h
    cases he : e.vals c with
    | none => rw [he] at h; simp at h
    | some x => simp [combine_single, combine_first, he]
  · intro h
    simp [combine_single, combine_first, h]
  · intro prefer
    by_cases hp : prefer = "edgar"
    · cases he : e.vals c with
      | none => left; simp [combine_single, combine_first, hp, he]
      | some x => right; simp [combine_single, combine_first, hp, he]
    · cases hs : s.vals c with
      | none => right; simp [combine_single, combine_first, hp, hs]
      | some x => left; simp [combine_single, combine_first, hp, hs]

/-- Witness for C7: preferring the scraped frame, `revenue` A=100 / B=200
merges to 100, and A=null / B=200 merges to 200. -/
theorem C7_reconciliation_precedence_witness :
    (combine_single rowA rowB "scraped").vals .revenue = some 100 ∧
    (combine_single rowANull rowB "scraped").vals .revenue = some 200 :=
  ⟨((C7_reconciliation_precedence rowA rowB .revenue rfl).1 rfl).trans rfl,
   ((C7_reconciliation_precedence rowANull rowB .revenue rfl).2.1 rfl).trans rfl⟩

/-! ## Claim C9 — normalization idempotence

The output of `normalize_record` has exactly the canonical keys (each one
present, no duplicates) and holds only floats or `None` in numeric fields;
on such a record a second `normalize_record` maps every key to itself,
inserts nothing, fills nothing, and casts every numeric value to itself. -/

theorem hasKey_iff (d : Record) (k : String) :
    hasKey d k = true ↔ k ∈ d.map Prod.fst := by
  simp [hasKey, List.any_eq_true, List.mem_map]

theorem hasKey_append (a b : Record) (k : String) :
    hasKey (a ++ b) k = (hasKey a k || hasKey b k) := by
  simp [hasKey, List.any_append]

/-- No canonical key occurs in the alias table, so `aliasKey` fixes it. -/
theorem aliasKey_canonical : ∀ k ∈ CANONICAL_KEYS, aliasKey k = k := by
  decide

/-- Every canonical key is canonical (membership form used below). -/
theorem canonical_mem_canonical : ∀ k ∈ CANONICAL_KEYS, k ∈ CANONICAL_KEYS :=
  fun _ h => h

theorem dictInsert_of_not_hasKey (d : Record) (k : String) (v : PyVal)
    (h : hasKey d k = false) : dictInsert d k v = d ++ [(k, v)] := by
  induction d with
  | nil => rfl
  | cons kv d ih =>
    obtain ⟨k', v'⟩ := kv
    simp only [hasKey, List.any_cons, Bool.or_eq_false_iff,
      decide_eq_false_iff_not] at h
    have hrest := ih (show hasKey d k = false by simpa [hasKey] using h.2)
    rw [dictInsert, if_neg h.1, hrest]
    rfl

theorem mem_dictInsert (d : Record) (k : String) (v : PyVal) :
    ∀ kv' ∈ dictInsert d k v, kv' = (k, v) ∨ kv' ∈ d := by
  induction d with
  | nil =>
    intro kv' h
    simp [dictInsert] at h
    exact Or.inl h
  | cons kv d ih =>
    intro kv' h
    rw [dictInsert] at h
    by_cases he : kv.1 = k
    · rw [if_pos he] at h
      rcases List.mem_cons.1 h with rfl | h'
      · exact Or.inl rfl
      · exact Or.inr (List.mem_cons_of_mem _ h')
    · rw [if_neg he] at h
      rcases List.mem_cons.1 h with rfl | h'
      · exact Or.inr (List.mem_cons_self _ _)
      · rcases ih kv' h' with h'' | h''
        · exact Or.inl h''
        · exact Or.inr (List.mem_cons_of_mem _ h'')

theorem keys_dictInsert_of_hasKey (d : Record) (k : String) (v : PyVal)
    (h : hasKey d k = true) :
    (dictInsert d k v).map Prod.fst = d.map Prod.fst := by
  induction d with
  | nil => simp [hasKey] at h
  | cons kv d ih =>
    by_cases he : kv.1 = k
    · rw [dictInsert, if_pos he]
      simp [he]
    · rw [dictInsert, if_neg he]
      simp only [hasKey, List.any_cons, Bool.or_eq_true,
        decide_eq_true_eq] at h
      rcases h with h | h
      · exact absurd h he
      · have := ih (show hasKey d k = true by simpa [hasKey] using h)
        simpa using this

/-- The alias-mapping fold keeps every key canonical with no duplicates. -/
theorem foldl_normStep_inv (r : Record) : ∀ acc : Record,
    (∀ kv ∈ acc, kv.1 ∈ CANONICAL_KEYS) → (acc.map Prod.fst).Nodup →
    (∀ kv ∈ r.foldl normStep acc, kv.1 ∈ CANONICAL_KEYS) ∧
    ((r.foldl normStep acc).map Prod.fst).Nodup := by
  induction r with
  | nil =>
    intro acc h1 h2
    exact ⟨h1, h2⟩
  | cons kv r ih =>
    intro acc h1 h2
    rw [List.foldl_cons]
    by_cases hk : aliasKey kv.1 ∈ CANONICAL_KEYS
    · rw [normStep, if_pos hk]
      by_cases hhk : hasKey acc (aliasKey kv.1) = true
      · refine ih _ ?_ ?_
        · intro kv' hkv'
          rcases mem_dictInsert acc (aliasKey kv.1) kv.2 kv' hkv' with rfl | h'
          · exact hk
          · exact h1 kv' h'
        · rw [keys_dictInsert_of_hasKey acc _ _ hhk]
          exact h2
      · rw [dictInsert_of_not_hasKey acc _ _ (by simpa using hhk)]
        refine ih _ ?_ ?_
        · intro kv' hkv'
          rcases List.mem_append.1 hkv' with h' | h'
          · exact h1 kv' h'
          · simp only [List.mem_singleton] at h'
            subst h'
            exact hk
        · have hnk : aliasKey kv.1 ∉ acc.map Prod.fst := by
            intro hmem
            exact hhk ((hasKey_iff acc _).2 hmem)
          simp [List.nodup_append, h2, hnk]
    · rw [normStep, if_neg hk]
      exact ih acc h1 h2

/-- The fill fold keeps keys canonical and duplicate-free when it is run over
canonical keys. -/
theorem foldl_fillStep_inv (ks : List String) : ∀ acc : Record,
    (∀ kv ∈ acc, kv.1 ∈ CANONICAL_KEYS) → (acc.map Prod.fst).Nodup →
    (∀ k ∈ ks, k ∈ CANONICAL_KEYS) →
    (∀ kv ∈ ks.foldl fillStep acc, kv.1 ∈ CANONICAL_KEYS) ∧
    ((ks.foldl fillStep acc).map Prod.fst).Nodup := by
  induction ks with
  | nil =>
    intro acc h1 h2 _
    exact ⟨h1, h2⟩
  | cons k ks ih =>
    intro acc h1 h2 h3
    rw [List.foldl_cons]
    by_cases hhk : hasKey acc k = true
    · rw [fillStep, if_pos hhk]
      exact ih acc h1 h2 (fun k' hk' => h3 k' (List.mem_cons_of_mem _ hk'))
    · rw [fillStep, if_neg hhk]
      refine ih _ ?_ ?_ (fun k' hk' => h3 k' (List.mem_cons_of_mem _ hk'))
      · intro kv' hkv'
        rcases List.mem_append.1 hkv' with h' | h'
        · exact h1 kv' h'
        · simp only [List.mem_singleton] at h'
          subst h'
          exact h3 k (List.mem_cons_self _ _)
      · have hnk : k ∉ acc.map Prod.fst := by
          intro hmem
          exact hhk ((hasKey_iff acc _).2 hmem)
        simp [List.nodup_append, h2, hnk]

theorem hasKey_fillStep_mono (acc : Record) (k k' : String)
    (h : hasKey acc k = true) : hasKey (fillStep acc k') k = true := by
  rw [fillStep]
  split
  · exact h
  · simp [hasKey_append, h]

theorem hasKey_fillStep_self (acc : Record) (k : String) :
    hasKey (fillStep acc k) k = true := by
  rw [fillStep]
  split
  · assumption
  · simp [hasKey_append, hasKey]

theorem hasKey_foldl_fillStep_mono (ks : List String) : ∀ (acc : Record) (k : String),
    hasKey acc k = true → hasKey (ks.foldl fillStep acc) k = true := by
  induction ks with
  | nil =>
    intro acc k h
    exact h
  | cons k' ks ih =>
    intro acc k h
    rw [List.foldl_cons]
    exact ih _ k (hasKey_fillStep_mono acc k k' h)

theorem foldl_fillStep_hasKey (ks : List String) : ∀ (acc : Record) (k : String),
    k ∈ ks → hasKey (ks.foldl fillStep acc) k = true := by
  induction ks with
  | nil =>
    intro _ _ h
    simp at h
  | cons k' ks ih =>
    intro acc k hk
    rw [List.foldl_cons]
    rcases List.mem_cons.1 hk with rfl | hk'
    · exact hasKey_foldl_fillStep_mono ks _ k (hasKey_fillStep_self acc k)
    · exact ih _ k hk'

theorem castStep_fst (kv : String × PyVal) : (castStep kv).1 = kv.1 := by
  rw [castStep]
  split <;> rfl

theorem keys_map_castStep (l : Record) :
    (l.map castStep).map Prod.fst = l.map Prod.fst := by
  rw [List.map_map]
  exact List.map_congr_left (fun kv _ => castStep_fst kv)

theorem castNumeric_shape (v : PyVal) :
    castNumeric v = PyVal.vNone ∨ ∃ q, castNumeric v = PyVal.vNum q := by
  cases v with
  | vNone => exact Or.inl rfl
  | vNum q => exact Or.inr ⟨q, rfl⟩
  | vStr s0 =>
    rw [castNumeric]
    cases hp : (if (stripSeps s0).endsWith "M" then
        (pyFloat ((stripSeps s0).dropRight 1)).map (fun q => q * 1000000)
      else if (stripSeps s0).endsWith "B" then
        (pyFloat ((stripSeps s0).dropRight 1)).map (fun q => q * 1000000000)
      else if (stripSeps s0).endsWith "K" then
        (pyFloat ((stripSeps s0).dropRight 1)).map (fun q => q * 1000)
      else pyFloat (stripSeps s0)) with
    | none => simp [hp]
    | some q => simp [hp]

theorem map_castStep_shape (l : Record) :
    ∀ kv ∈ l.map castStep, kv.1 ∈ NUMERIC_FIELDS →
      kv.2 = PyVal.vNone ∨ ∃ q, kv.2 = PyVal.vNum q := by
  intro kv hkv hnum
  obtain ⟨kv₀, hkv₀, rfl⟩ := List.mem_map.1 hkv
  by_cases hc : kv₀.1 ∈ NUMERIC_FIELDS ∧ kv₀.2 ≠ PyVal.vNone
  · rw [castStep, if_pos hc]
    exact castNumeric_shape kv₀.2
  · rw [castStep, if_neg hc] at hnum ⊢
    rcases not_and_or.1 hc with h | h
    · exact absurd hnum h
    · exact Or.inl (not_not.1 h)

/-- The output of `normalize_record` is well-formed: every key canonical, no
duplicate keys, every canonical key present, numeric fields float-or-`None`. -/
theorem normalize_record_wf (r : Record) :
    (∀ kv ∈ normalize_record r, kv.1 ∈ CANONICAL_KEYS) ∧
    ((normalize_record r).map Prod.fst).Nodup ∧
    (∀ k ∈ CANONICAL_KEYS, hasKey (normalize_record r) k = true) ∧
    (∀ kv ∈ normalize_record r, kv.1 ∈ NUMERIC_FIELDS →
      kv.2 = PyVal.vNone ∨ ∃ q, kv.2 = PyVal.vNum q) := by
  obtain ⟨hb1, hb2⟩ := foldl_normStep_inv r [] (by simp) (by simp)
  obtain ⟨hf1, hf2⟩ := foldl_fillStep_inv CANONICAL_KEYS (r.foldl normStep [])
    hb1 hb2 canonical_mem_canonical
  refine ⟨?_, ?_, ?_, ?_⟩
  · intro kv hkv
    obtain ⟨kv₀, hkv₀, rfl⟩ := List.mem_map.1 hkv
    rw [castStep_fst]
    exact hf1 kv₀ hkv₀
  · rw [normalize_record, keys_map_castStep]
    exact hf2
  · intro k hk
    rw [normalize_record]
    have := foldl_fillStep_hasKey CANONICAL_KEYS (r.foldl normStep []) k hk
    rw [hasKey_iff] at this ⊢
    rwa [keys_map_castStep]
  · exact map_castStep_shape _

/-- The rebuild fold is the identity on a record whose keys are canonical and
duplicate-free. -/
theorem foldl_normStep_eq (l : Record) : ∀ acc : Record,
    (∀ kv ∈ l, kv.1 ∈ CANONICAL_KEYS) → (l.map Prod.fst).Nodup →
    (∀ kv ∈ l, hasKey acc kv.1 = false) →
    l.foldl normStep acc = acc ++ l := by
  induction l with
  | nil =>
    intro acc _ _ _
    simp
  | cons kv l ih =>
    intro acc h1 h2 h3
    have hk : kv.1 ∈ CANONICAL_KEYS := h1 kv (List.mem_cons_self _ _)
    have halias : aliasKey kv.1 = kv.1 := aliasKey_canonical kv.1 hk
    rw [List.foldl_cons, normStep, halias, if_pos hk,
      dictInsert_of_not_hasKey acc kv.1 kv.2 (h3 kv (List.mem_cons_self _ _))]
    have h2' : (kv.1 :: l.map Prod.fst).Nodup := by
      simpa using h2
    have hnodup : (l.map Prod.fst).Nodup := (List.nodup_cons.1 h2').2
    have hhd : kv.1 ∉ l.map Prod.fst := (List.nodup_cons.1 h2').1
    rw [ih (acc ++ [(kv.1, kv.2)])
      (fun kv' hkv' => h1 kv' (List.mem_cons_of_mem _ hkv')) hnodup ?_]
    · simp
    · intro kv' hkv'
      have h3' := h3 kv' (List.mem_cons_of_mem _ hkv')
      have hne : kv.1 ≠ kv'.1 := by
        intro he
        exact hhd (he ▸ List.mem_map.2 ⟨kv', hkv', rfl⟩)
      rw [hasKey_append, h3']
      simp [hasKey, hne]

/-- The fill fold is the identity when every key it would add is present. -/
theorem foldl_fillStep_eq (ks : List String) : ∀ acc : Record,
    (∀ k ∈ ks, hasKey acc k = true) → ks.foldl fillStep acc = acc := by
  induction ks with
  | nil =>
    intro acc _
    rfl
  | cons k ks ih =>
    intro acc h
    rw [List.foldl_cons, fillStep, if_pos (h k (List.mem_cons_self _ _))]
    exact ih acc (fun k' hk' => h k' (List.mem_cons_of_mem _ hk'))

/-- `normalize_record` is the identity on any well-formed record. -/
theorem normalize_record_of_wf (o : Record)
    (ha : ∀ kv ∈ o, kv.1 ∈ CANONICAL_KEYS)
    (hb : (o.map Prod.fst).Nodup)
    (hc : ∀ k ∈ CANONICAL_KEYS, hasKey o k = true)
    (hd : ∀ kv ∈ o, kv.1 ∈ NUMERIC_FIELDS →
      kv.2 = PyVal.vNone ∨ ∃ q, kv.2 = PyVal.vNum q) :
    normalize_record o = o := by
  rw [normalize_record, foldl_normStep_eq o [] ha hb (by simp [hasKey]),
    List.nil_append, foldl_fillStep_eq CANONICAL_KEYS o hc]
  have hid : ∀ kv ∈ o, castStep kv = kv := by
    intro kv hkv
    by_cases hcond : kv.1 ∈ NUMERIC_FIELDS ∧ kv.2 ≠ PyVal.vNone
    · rcases hd kv hkv hcond.1 with h | ⟨q, h⟩
      · exact absurd h hcond.2
      · rw [castStep, if_pos hcond]
        show (kv.1, castNumeric kv.2) = kv
        rw [h]
        show (kv.1, PyVal.vNum q) = kv
        rw [← h]
    · rw [castStep, if_neg hcond]
  exact (List.map_congr_left hid).trans (List.map_id' o)

/-- **C9.** Normalization is idempotent: re-normalizing the output of
`normalize_record` changes neither the column set nor any value. -/
theorem C9_normalize_idempotent (r : Record) :
    normalize_record (normalize_record r) = normalize_record r := by
  obtain ⟨ha, hb, hc, hd⟩ := normalize_record_wf r
  exact normalize_record_of_wf (normalize_record r) ha hb hc hd

end InsiderScreen
